import Mathlib

set_option maxRecDepth 100000

/-!
Shallow embedding of `src/infa3/helper.py` (module `infa3.helper`): helpers
that build command lines for Informatica programs, run them, check their
status and post-process their output.  Python dictionaries are modelled as
association lists (insertion order = iteration order), Python values that
may be strings, booleans or `None` as the inductive type `PyVal`, Python's
substring test `sub in s` as `strContains`, and exceptions as `Except`.
-/

namespace Infa

/-- A Python value as it occurs in a configuration mapping: a string,
a boolean, or `None`. -/
inductive PyVal where
  | str (s : String)
  | bool (b : Bool)
  | none
  deriving DecidableEq, Repr

/-- Python's `value == True` for a `PyVal`: only the boolean `True`
compares equal to `True` (strings such as `"true"` and `None` do not). -/
def pyEqTrue : PyVal → Bool
  | .bool b => b
  | _ => false

/-- Python's substring test `sub in s`. -/
def strContains (s sub : String) : Bool := decide (sub.data <:+: s.data)

/-- `cmd_prepare` from `helper.py`: walk the configuration in iteration
order; an argument option contributes `-key` and its value, a flag option
whose value is exactly `True` contributes `-key`, a flag option with any
other value contributes nothing, and a key in neither list raises
`unsupported option: <key>`. -/
def cmd_prepare (params : List (String × PyVal)) (opts_args opts_flags : List String) :
    Except String (List PyVal) :=
  match params with
  | [] => .ok []
  | (key, value) :: rest =>
    if key ∈ opts_args then
      (cmd_prepare rest opts_args opts_flags).map
        (fun c => PyVal.str ("-" ++ key) :: value :: c)
    else if key ∈ opts_flags ∧ pyEqTrue value then
      (cmd_prepare rest opts_args opts_flags).map
        (fun c => PyVal.str ("-" ++ key) :: c)
    else if key ∉ opts_args ++ opts_flags then
      .error ("unsupported option: " ++ key)
    else
      cmd_prepare rest opts_args opts_flags

/-- The token list produced for a single argument-option pair. -/
def argTokens (p : String × PyVal) : List PyVal :=
  [PyVal.str ("-" ++ p.1), p.2]

theorem strContains_append_right (a b : String) : strContains (a ++ b) b = true := by
  simp only [strContains, decide_eq_true_iff, String.data_append]
  exact (List.suffix_append a.data b.data).isInfix

theorem strContains_iff {s sub : String} : strContains s sub = true ↔ sub.data <:+: s.data := by
  simp [strContains]

theorem length_flatMap_argTokens (params : List (String × PyVal)) :
    (params.flatMap argTokens).length = 2 * params.length := by
  induction params with
  | nil => simp
  | cons p rest ih =>
    rw [List.flatMap_cons, List.length_append, ih]
    simp [argTokens]
    omega

/-- C1: if every key of the configuration is an argument option, the result
is `ok` and is the in-order concatenation of the pairs `-key`, `value`; in
particular it has exactly `2 × |params|` tokens. -/
theorem cmd_prepare_all_args (params : List (String × PyVal))
    (opts_args opts_flags : List String)
    (h : ∀ p ∈ params, p.1 ∈ opts_args) :
    cmd_prepare params opts_args opts_flags = .ok (params.flatMap argTokens) ∧
    (params.flatMap argTokens).length = 2 * params.length := by
  constructor
  · induction params with
    | nil => simp [cmd_prepare]
    | cons p rest ih =>
      obtain ⟨key, value⟩ := p
      have hk : key ∈ opts_args := h (key, value) (List.mem_cons_self _ _)
      have hr : ∀ q ∈ rest, q.1 ∈ opts_args := fun q hq => h q (List.mem_cons_of_mem _ hq)
      simp [cmd_prepare, hk, ih hr, argTokens, Except.map]
  · exact length_flatMap_argTokens params

/-- C1 witness at a concrete two-key configuration. -/
theorem cmd_prepare_all_args_witness :
    cmd_prepare [("f", PyVal.str "wf_run"), ("s", PyVal.str "sess")] ["f", "s"] ["v"]
      = .ok [PyVal.str "-f", PyVal.str "wf_run", PyVal.str "-s", PyVal.str "sess"] ∧
    ([("f", PyVal.str "wf_run"), ("s", PyVal.str "sess")].flatMap argTokens).length = 2 * 2 := by
  have h := cmd_prepare_all_args
    [("f", PyVal.str "wf_run"), ("s", PyVal.str "sess")] ["f", "s"] ["v"]
    (by decide)
  exact ⟨by rw [h.1]; rfl, h.2⟩

/-- C2: a configuration containing a key that is in neither option list makes
`cmd_prepare` raise `unsupported option: <key>` for such a key, and the
message contains the key's name. -/
theorem cmd_prepare_unsupported (params : List (String × PyVal))
    (opts_args opts_flags : List String)
    (h : ∃ p ∈ params, p.1 ∉ opts_args ∧ p.1 ∉ opts_flags) :
    ∃ k, (∃ v, (k, v) ∈ params) ∧ k ∉ opts_args ∧ k ∉ opts_flags ∧
      cmd_prepare params opts_args opts_flags = .error ("unsupported option: " ++ k) ∧
      strContains ("unsupported option: " ++ k) k = true := by
  induction params with
  | nil => simp at h
  | cons p rest ih =>
    obtain ⟨key, value⟩ := p
    by_cases hk : key ∈ opts_args
    · have h' : ∃ q ∈ rest, q.1 ∉ opts_args ∧ q.1 ∉ opts_flags := by
        obtain ⟨q, hq, hq1, hq2⟩ := h
        rcases List.mem_cons.mp hq with rfl | hq'
        · exact absurd hk hq1
        · exact ⟨q, hq', hq1, hq2⟩
      obtain ⟨k, ⟨v, hv⟩, h1, h2, herr, hcon⟩ := ih h'
      refine ⟨k, ⟨v, List.mem_cons_of_mem _ hv⟩, h1, h2, ?_, hcon⟩
      simp [cmd_prepare, hk, herr, Except.map]
    · by_cases hf : key ∈ opts_flags ∧ pyEqTrue value
      · have h' : ∃ q ∈ rest, q.1 ∉ opts_args ∧ q.1 ∉ opts_flags := by
          obtain ⟨q, hq, hq1, hq2⟩ := h
          rcases List.mem_cons.mp hq with rfl | hq'
          · exact absurd hf.1 hq2
          · exact ⟨q, hq', hq1, hq2⟩
        obtain ⟨k, ⟨v, hv⟩, h1, h2, herr, hcon⟩ := ih h'
        refine ⟨k, ⟨v, List.mem_cons_of_mem _ hv⟩, h1, h2, ?_, hcon⟩
        simp [cmd_prepare, hk, hf, herr, Except.map]
      · by_cases hb : key ∈ opts_args ++ opts_flags
        · have hof : key ∈ opts_flags := by
            rcases List.mem_append.mp hb with h1 | h2
            · exact absurd h1 hk
            · exact h2
          have h' : ∃ q ∈ rest, q.1 ∉ opts_args ∧ q.1 ∉ opts_flags := by
            obtain ⟨q, hq, hq1, hq2⟩ := h
            rcases List.mem_cons.mp hq with rfl | hq'
            · exact absurd hof hq2
            · exact ⟨q, hq', hq1, hq2⟩
          obtain ⟨k, ⟨v, hv⟩, h1, h2, herr, hcon⟩ := ih h'
          refine ⟨k, ⟨v, List.mem_cons_of_mem _ hv⟩, h1, h2, ?_, hcon⟩
          simp [cmd_prepare, hk, hf, hb, herr]
        · have h2 : key ∉ opts_flags := fun hin => hb (List.mem_append.mpr (Or.inr hin))
          refine ⟨key, ⟨value, List.mem_cons_self _ _⟩, hk, h2, ?_,
            strContains_append_right _ _⟩
          simp [cmd_prepare, hk, hf, hb]

/-- C2 witness at a concrete configuration with an unrecognized key. -/
theorem cmd_prepare_unsupported_witness :
    ∃ k, (∃ v, (k, v) ∈ [("bogus", PyVal.str "x")]) ∧ k ∉ ["f"] ∧ k ∉ ["v"] ∧
      cmd_prepare [("bogus", PyVal.str "x")] ["f"] ["v"]
        = .error ("unsupported option: " ++ k) ∧
      strContains ("unsupported option: " ++ k) k = true :=
  cmd_prepare_unsupported [("bogus", PyVal.str "x")] ["f"] ["v"] (by decide)

/-- The token list any single configuration pair contributes, given the two
option lists. -/
def pairTokens (opts_args opts_flags : List String) (p : String × PyVal) : List PyVal :=
  if p.1 ∈ opts_args then [PyVal.str ("-" ++ p.1), p.2]
  else if p.1 ∈ opts_flags ∧ pyEqTrue p.2 then [PyVal.str ("-" ++ p.1)]
  else []

theorem cmd_prepare_ok (params : List (String × PyVal))
    (opts_args opts_flags : List String)
    (h : ∀ p ∈ params, p.1 ∈ opts_args ∨ p.1 ∈ opts_flags) :
    cmd_prepare params opts_args opts_flags
      = .ok (params.flatMap (pairTokens opts_args opts_flags)) := by
  induction params with
  | nil => simp [cmd_prepare]
  | cons p rest ih =>
    obtain ⟨key, value⟩ := p
    have hr := ih (fun q hq => h q (List.mem_cons_of_mem _ hq))
    have hb : key ∈ opts_args ++ opts_flags :=
      List.mem_append.mpr (h (key, value) (List.mem_cons_self _ _))
    by_cases hk : key ∈ opts_args
    · simp [cmd_prepare, pairTokens, hk, hr, Except.map]
    · by_cases hf : key ∈ opts_flags ∧ pyEqTrue value
      · simp [cmd_prepare, pairTokens, hk, hf, hr, Except.map]
      · simp [cmd_prepare, pairTokens, hk, hf, hb, hr]

/-- C3: when every key is recognized, the output is the in-order
concatenation of per-pair token lists, and a flag key (that is not an
argument key) contributes exactly the single token `-key` when its value is
the boolean `True`, and no token at all when it is `False`. -/
theorem cmd_prepare_flag_tokens (params : List (String × PyVal))
    (opts_args opts_flags : List String) (key : String)
    (hf : key ∈ opts_flags) (ha : key ∉ opts_args)
    (hall : ∀ p ∈ params, p.1 ∈ opts_args ∨ p.1 ∈ opts_flags) :
    cmd_prepare params opts_args opts_flags
      = .ok (params.flatMap (pairTokens opts_args opts_flags)) ∧
    pairTokens opts_args opts_flags (key, PyVal.bool true) = [PyVal.str ("-" ++ key)] ∧
    pairTokens opts_args opts_flags (key, PyVal.bool false) = [] := by
  refine ⟨cmd_prepare_ok params opts_args opts_flags hall, ?_, ?_⟩
  · simp [pairTokens, ha, hf, pyEqTrue]
  · simp [pairTokens, ha, hf, pyEqTrue]

/-- C3 witness: one flag set to `True`, one set to `False`. -/
theorem cmd_prepare_flag_tokens_witness :
    cmd_prepare [("v", PyVal.bool true), ("w", PyVal.bool false)] ["f"] ["v", "w"]
      = .ok ([("v", PyVal.bool true), ("w", PyVal.bool false)].flatMap
          (pairTokens ["f"] ["v", "w"])) ∧
    pairTokens ["f"] ["v", "w"] ("v", PyVal.bool true) = [PyVal.str "-v"] ∧
    pairTokens ["f"] ["v", "w"] ("v", PyVal.bool false) = [] :=
  cmd_prepare_flag_tokens [("v", PyVal.bool true), ("w", PyVal.bool false)]
    ["f"] ["v", "w"] "v" (by decide) (by decide) (by decide)

/-- C10: a key that is a flag option but not an argument option, whose value
is anything other than the boolean `True` (`None`, `"true"`, `""`, `False`,
any string), is silently dropped: the result — tokens and error behaviour —
is as if the pair were absent from the configuration. -/
theorem cmd_prepare_flag_nontrue_dropped (pre post : List (String × PyVal))
    (opts_args opts_flags : List String) (key : String) (v : PyVal)
    (hf : key ∈ opts_flags) (ha : key ∉ opts_args) (hv : pyEqTrue v = false) :
    cmd_prepare (pre ++ (key, v) :: post) opts_args opts_flags
      = cmd_prepare (pre ++ post) opts_args opts_flags := by
  induction pre with
  | nil =>
    have hb : key ∈ opts_args ++ opts_flags := List.mem_append.mpr (Or.inr hf)
    simp [cmd_prepare, ha, hv, hb]
  | cons q pre' ih =>
    obtain ⟨qk, qv⟩ := q
    by_cases hk : qk ∈ opts_args
    · simp [cmd_prepare, hk, ih]
    · by_cases hqf : qk ∈ opts_flags ∧ pyEqTrue qv
      · simp [cmd_prepare, hk, hqf, ih]
      · by_cases hb : qk ∈ opts_args ++ opts_flags
        · simp [cmd_prepare, hk, hqf, hb, ih]
        · simp [cmd_prepare, hk, hqf, hb]

/-- C10 witness: a flag set to `None` between two argument options. -/
theorem cmd_prepare_flag_nontrue_dropped_witness :
    cmd_prepare [("f", PyVal.str "a"), ("nowait", PyVal.none), ("s", PyVal.str "b")]
        ["f", "s"] ["nowait"]
      = cmd_prepare [("f", PyVal.str "a"), ("s", PyVal.str "b")] ["f", "s"] ["nowait"] :=
  cmd_prepare_flag_nontrue_dropped [("f", PyVal.str "a")] [("s", PyVal.str "b")]
    ["f", "s"] ["nowait"] "nowait" PyVal.none (by decide) (by decide) (by decide)

/-- Python's `sep.join(xs)`. -/
def pyJoin (sep : String) : List String → String
  | [] => ""
  | [x] => x
  | x :: xs => x ++ sep ++ pyJoin sep xs

/-- `cmd_status` from `helper.py`: succeed silently when some output line
contains `completed successfully`; otherwise print the joined output lines
(first component, `some` of the printed text) and raise
`failed to execute: <command joined with spaces>`. -/
def cmd_status (command command_output : List String) : Option String × Except String Unit :=
  if command_output.any (fun line => strContains line "completed successfully") then
    (Option.none, .ok ())
  else
    (some (pyJoin "\n" command_output),
     .error ("failed to execute: " ++ pyJoin " " command))

theorem strContains_pyJoin_of_mem {sep : String} {xs : List String} {l : String}
    (h : l ∈ xs) : strContains (pyJoin sep xs) l = true := by
  induction xs with
  | nil => simp at h
  | cons x xs ih =>
    rcases List.mem_cons.mp h with rfl | hmem
    · cases xs with
      | nil => simp [pyJoin, strContains_iff]
      | cons y ys =>
        rw [strContains_iff]
        show l.data <:+: (l ++ sep ++ pyJoin sep (y :: ys)).data
        simp only [String.data_append]
        exact ((List.prefix_append l.data sep.data).trans
          (List.prefix_append _ _)).isInfix
    · cases xs with
      | nil => simp at hmem
      | cons y ys =>
        rw [strContains_iff]
        show l.data <:+: (x ++ sep ++ pyJoin sep (y :: ys)).data
        simp only [String.data_append]
        exact (strContains_iff.mp (ih hmem)).trans
          ((List.suffix_append _ _).isInfix)

/-- C4: `cmd_status` returns success exactly when some output line contains
the substring `completed successfully`; otherwise it prints the joined
output (so every output line occurs in the printed text) and raises an
error whose message contains the space-joined command. -/
theorem cmd_status_correct (command command_output : List String) :
    ((cmd_status command command_output).2 = .ok ()
        ↔ ∃ l ∈ command_output, strContains l "completed successfully" = true) ∧
    ((¬ ∃ l ∈ command_output, strContains l "completed successfully" = true) →
      (cmd_status command command_output).1 = some (pyJoin "\n" command_output) ∧
      (∀ l ∈ command_output, strContains (pyJoin "\n" command_output) l = true) ∧
      (cmd_status command command_output).2
        = .error ("failed to execute: " ++ pyJoin " " command) ∧
      strContains ("failed to execute: " ++ pyJoin " " command)
        (pyJoin " " command) = true) := by
  by_cases hc : command_output.any (fun line => strContains line "completed successfully")
  · constructor
    · simp only [cmd_status, if_pos hc]
      exact ⟨fun _ => by simpa using List.any_eq_true.mp hc, fun _ => by trivial⟩
    · intro hn
      exact absurd (by simpa using List.any_eq_true.mp hc) hn
  · constructor
    · simp only [cmd_status, if_neg hc]
      constructor
      · intro h
        exact absurd h (by simp)
      · intro h
        exact absurd (List.any_eq_true.mpr (by simpa using h)) hc
    · intro _
      refine ⟨by simp [cmd_status, hc], fun l hl => strContains_pyJoin_of_mem hl,
        by simp [cmd_status, hc], strContains_append_right _ _⟩

/-- C4 witness: a failing run and a succeeding run at concrete inputs. -/
theorem cmd_status_correct_witness :
    (cmd_status ["pmrep", "connect"] ["bad output"]).1 = some "bad output" ∧
    (cmd_status ["pmrep", "connect"] ["bad output"]).2
      = .error "failed to execute: pmrep connect" ∧
    (cmd_status ["pmrep"] ["Process completed successfully."]).2 = .ok () := by
  have h := cmd_status_correct ["pmrep", "connect"] ["bad output"]
  have h2 := cmd_status_correct ["pmrep"] ["Process completed successfully."]
  refine ⟨(h.2 (by decide)).1, (h.2 (by decide)).2.2.1, ?_⟩
  exact h2.1.mpr ⟨"Process completed successfully.", by decide, by decide⟩

/-- Python's `c.isspace()`-style whitespace used by `str.strip()`. -/
def pyIsSpace (c : Char) : Bool :=
  c = ' ' || c = '\t' || c = '\n' || c = '\r' || c = '\x0B' || c = '\x0C'

/-- Python's `s.strip()`: remove leading and trailing whitespace. -/
def pyStrip (s : String) : String :=
  String.mk (((s.data.dropWhile pyIsSpace).reverse.dropWhile pyIsSpace).reverse)

/-- Split a character list on each non-overlapping occurrence of `sep`,
leftmost first; the fuel bounds the recursion and a fuel of the list's
length is always enough for a nonempty `sep`. -/
def splitFuel (sep : List Char) : Nat → List Char → List Char → List (List Char)
  | _, [], acc => [acc.reverse]
  | 0, l, acc => [acc.reverse ++ l]
  | fuel + 1, c :: cs, acc =>
    if sep.isPrefixOf (c :: cs) then
      acc.reverse :: splitFuel sep fuel (List.drop sep.length (c :: cs)) []
    else
      splitFuel sep fuel cs (c :: acc)

/-- Python's `s.split(sep)` for a nonempty separator. -/
def pySplit (s sep : String) : List String :=
  (splitFuel sep.data s.data.length s.data []).map String.mk

/-- One element of `format_output`'s result: a Python value that is either
a plain string or a list of field strings. -/
inductive Entry where
  | scalar (s : String)
  | fields (fs : List String)
  deriving DecidableEq, Repr

/-- The boilerplate substrings `format_output` filters out. -/
def ignore_lines : List String :=
  ["Informatica", "Copyright", "All Rights Reserved", "This Software is protected",
   "Invoked at", "Completed at", "completed successfully"]

/-- Python's `if item and not any(s in item for s in ignore_lines)`:
keep a line when it is non-empty and contains no boilerplate substring. -/
def keepLine (item : String) : Bool :=
  item != "" && !(ignore_lines.any (fun s => strContains item s))

/-- The body of `format_output`'s loop for a kept line: split the stripped
line on the separator when the separator occurs in it, else keep the
stripped line as a scalar. -/
def convLine (field_separator : String) (item : String) : Entry :=
  if strContains item field_separator then
    Entry.fields (pySplit (pyStrip item) field_separator)
  else Entry.scalar (pyStrip item)

/-- `format_output` from `helper.py`. -/
def format_output (command_output : List String) (field_separator : String) : List Entry :=
  match command_output with
  | [] => []
  | item :: rest =>
    if keepLine item then
      convLine field_separator item :: format_output rest field_separator
    else
      format_output rest field_separator

/-- C5 counterexample: a line of three spaces is neither empty nor contains
boilerplate, so it survives the filter and contributes the empty scalar —
it is not dropped. -/
theorem format_output_blank_not_dropped :
    format_output ["   "] "|" = [Entry.scalar ""] ∧
    format_output ["   "] "|" ≠ [] := by
  constructor
  · rfl
  · intro h
    exact absurd h (by decide)

/-- C5 amended: `format_output` drops every line that is empty and every
line containing one of the boilerplate substrings; such a line contributes
no element (nonempty all-whitespace lines, by contrast, are kept). -/
theorem format_output_drops_boilerplate (pre post : List String)
    (field_separator bad : String)
    (h : bad = "" ∨ ∃ s ∈ ignore_lines, strContains bad s = true) :
    format_output (pre ++ bad :: post) field_separator
      = format_output (pre ++ post) field_separator := by
  have hk : keepLine bad = false := by
    rcases h with rfl | ⟨s, hs, hcon⟩
    · decide
    · have hany : ignore_lines.any (fun s => strContains bad s) = true :=
        List.any_eq_true.mpr ⟨s, hs, hcon⟩
      simp [keepLine, hany]
  induction pre with
  | nil => simp [format_output, hk]
  | cons q pre' ih =>
    by_cases hq : keepLine q
    · simp [format_output, hq, ih]
    · simp [format_output, hq, ih]

/-- C5 amended witness: a `Copyright` line between two data lines is
dropped. -/
theorem format_output_drops_boilerplate_witness :
    format_output ["A|B", "Copyright 2015", "x"] "|" = format_output ["A|B", "x"] "|" :=
  format_output_drops_boilerplate ["A|B"] ["x"] "|" "Copyright 2015"
    (Or.inr ⟨"Copyright", by decide, by decide⟩)

/-- C6: `format_output` is the stable filter of the kept lines followed by
the per-line conversion, and the conversion strips the line first and then
splits it on the separator when the separator occurs in it, keeping the
stripped line as a scalar otherwise. -/
theorem format_output_filter_map (command_output : List String)
    (field_separator : String) (_hsep : field_separator ≠ "") :
    format_output command_output field_separator
      = (command_output.filter keepLine).map (convLine field_separator) ∧
    (∀ item, strContains item field_separator = true →
      convLine field_separator item
        = Entry.fields (pySplit (pyStrip item) field_separator)) ∧
    (∀ item, strContains item field_separator = false →
      convLine field_separator item = Entry.scalar (pyStrip item)) := by
  refine ⟨?_, ?_, ?_⟩
  · induction command_output with
    | nil => rfl
    | cons item rest ih =>
      by_cases hkeep : keepLine item
      · simp [format_output, hkeep, List.filter_cons, ih]
      · simp [format_output, hkeep, List.filter_cons, ih]
  · intro item hc
    simp [convLine, hc]
  · intro item hc
    simp [convLine, hc]

/-- C6 witness at a concrete output list and separator. -/
theorem format_output_filter_map_witness :
    format_output ["A|B", "", " ok "] "|"
      = (["A|B", "", " ok "].filter keepLine).map (convLine "|") ∧
    convLine "|" " A | B " = Entry.fields ["A ", " B"] ∧
    convLine "|" " ok " = Entry.scalar "ok" := by
  have h := format_output_filter_map ["A|B", "", " ok "] "|" (by decide)
  refine ⟨h.1, ?_, ?_⟩
  · have := h.2.1 " A | B " (by decide)
    rw [this]; rfl
  · have := h.2.2 " ok " (by decide)
    rw [this]; rfl

/-- Lower-case hex digit for `n < 16`, as Python prints in `\xNN` escapes. -/
def hexDigitChar (n : Nat) : Char :=
  if n < 10 then Char.ofNat (48 + n) else Char.ofNat (87 + n)

/-- How Python renders one byte inside `repr` of a `bytes` object:
tab, line feed, carriage return and backslash get two-character escapes,
the quote character gets one when single quotes delimit the literal,
printable ASCII stands for itself and everything else becomes `\xNN`. -/
def pyByteEscape (escapeSq : Bool) (n : Nat) : List Char :=
  if n = 9 then ['\\', 't']
  else if n = 10 then ['\\', 'n']
  else if n = 13 then ['\\', 'r']
  else if n = 92 then ['\\', '\\']
  else if n = 39 && escapeSq then ['\\', Char.ofNat 39]
  else if 32 ≤ n && n ≤ 126 then [Char.ofNat n]
  else ['\\', 'x', hexDigitChar (n / 16), hexDigitChar (n % 16)]

/-- Python 3's `str(b)` for a `bytes` value `b`: the `repr`, a `b` prefix
and quoted, escaped content; double quotes delimit exactly when the bytes
contain a single quote but no double quote. -/
def pyBytesRepr (bs : List Nat) : String :=
  let useDq := bs.contains 39 && !(bs.contains 34)
  let q : Char := if useDq then Char.ofNat 34 else Char.ofNat 39
  String.mk ('b' :: q :: (bs.flatMap (pyByteEscape (!useDq)) ++ [q]))

/-- Python's `s.strip(chars)`: remove from both ends every character that
occurs in `chars` (a character set, not a prefix/suffix string). -/
def pyStripChars (s chars : String) : String :=
  String.mk (((s.data.dropWhile (chars.data.contains ·)).reverse.dropWhile
    (chars.data.contains ·)).reverse)

/-- The two-character set `b'` that `cmd_execute` passes to `strip`. -/
def stripBQuote : String := String.mk ['b', Char.ofNat 39]

/-- `cmd_execute` from `helper.py`, modelled on the captured stdout bytes
(the subprocess spawn itself is I/O):
`str(command_output[0]).strip("b'").split('\\r\\n')` — note that the
split pattern is the four-character text backslash-r-backslash-n, applied
to the `repr` text of the bytes. -/
def cmd_execute (stdout_bytes : List Nat) : List String :=
  pySplit (pyStripChars (pyBytesRepr stdout_bytes) stripBQuote) "\\r\\n"

/-- Modelled from the spec (Process Runner contract, the behaviour the
claim states): return the captured standard output decoded as text and
split on the two-character carriage-return + line-feed sequence. -/
def cmd_execute_claimed (stdout_bytes : List Nat) : List String :=
  pySplit (String.mk (stdout_bytes.map Char.ofNat)) "\r\n"

/-- C9: at the one-line stdout `b"job"` the code returns `["jo"]`, not
`["job"]`: `str()` of the bytes object yields the text `b'job'` and
`strip("b'")` eats the trailing `b` of the payload along with the quotes,
so the result does not correspond to the stdout lines. -/
theorem cmd_execute_mangles_stdout :
    cmd_execute [106, 111, 98] = ["jo"] ∧
    cmd_execute_claimed [106, 111, 98] = ["job"] ∧
    cmd_execute [106, 111, 98] ≠ cmd_execute_claimed [106, 111, 98] := by
  refine ⟨rfl, rfl, ?_⟩
  intro h
  exact absurd h (by decide)

/-- The opening brace character of a template placeholder. -/
def lbrace : Char := Char.ofNat 123

/-- The closing brace character of a template placeholder. -/
def rbrace : Char := Char.ofNat 125

/-- Keyword-argument lookup for `str.format`. -/
def envLookup (env : List (String × String)) (name : String) : String :=
  ((env.find? (fun p => p.1 == name)).map Prod.snd).getD ""

/-- Scanner for Python's `str.format` restricted to plain named
placeholders: copy characters until an opening brace, collect the name up
to the closing brace, splice in the looked-up value (not rescanned), and
continue. -/
def formatSubstAux (env : List (String × String)) : Bool → List Char → List Char → List Char
  | false, _, [] => []
  | false, acc, c :: rest =>
    if c = lbrace then formatSubstAux env true [] rest
    else c :: formatSubstAux env false acc rest
  | true, _, [] => []
  | true, acc, c :: rest =>
    if c = rbrace then
      (envLookup env (String.mk acc.reverse)).data ++ formatSubstAux env false [] rest
    else formatSubstAux env true (c :: acc) rest

/-- Python's `template.format(...)` on plain named placeholders. -/
def formatSubst (env : List (String × String)) (s : List Char) : List Char :=
  formatSubstAux env false [] s

/-- The literal template of `create_import_control_xml` in `helper.py`. -/
def xmlTemplate : String :=
  "<?xml version=\"1.0\" encoding=\"ISO-8859-1\"?>\n<!DOCTYPE IMPORTPARAMS SYSTEM \"\x7bdtd\x7d\">\n<IMPORTPARAMS CHECKIN_AFTER_IMPORT=\"NO\">\n<FOLDERMAP SOURCEFOLDERNAME=\"\x7bsrc_folder\x7d\" SOURCEREPOSITORYNAME=\"\x7bsrc_repo\x7d\" TARGETFOLDERNAME=\"\x7btgt_folder\x7d\" TARGETREPOSITORYNAME=\"\x7btgt_repo\x7d\"/>\n<RESOLVECONFLICT>\n<TYPEOBJECT OBJECTTYPENAME = \"ALL\" RESOLUTION=\"REPLACE\"/>\n</RESOLVECONFLICT>\n</IMPORTPARAMS>"

/-- `create_import_control_xml` from `helper.py`: the text written to the
control file (the file write itself is I/O; read-back of a written file
returns the written text, so the content function is the round-trip). -/
def create_import_control_xml (src_folder src_repo tgt_folder tgt_repo dtd : String) :
    String :=
  String.mk (formatSubst
    [("src_folder", src_folder), ("src_repo", src_repo), ("tgt_folder", tgt_folder),
     ("tgt_repo", tgt_repo), ("dtd", dtd)] xmlTemplate.data)

/-- The literal pieces of the template between the five placeholders. -/
def xmlSeg0 : String :=
  "<?xml version=\"1.0\" encoding=\"ISO-8859-1\"?>\n<!DOCTYPE IMPORTPARAMS SYSTEM \""

/-- Template piece between the DTD and the source folder placeholders. -/
def xmlSeg1 : String :=
  "\">\n<IMPORTPARAMS CHECKIN_AFTER_IMPORT=\"NO\">\n<FOLDERMAP SOURCEFOLDERNAME=\""

/-- Template piece before the source repository placeholder. -/
def xmlSeg2 : String := "\" SOURCEREPOSITORYNAME=\""

/-- Template piece before the target folder placeholder. -/
def xmlSeg3 : String := "\" TARGETFOLDERNAME=\""

/-- Template piece before the target repository placeholder. -/
def xmlSeg4 : String := "\" TARGETREPOSITORYNAME=\""

/-- Template piece after the last placeholder, with the conflict rule. -/
def xmlSeg5 : String :=
  "\"/>\n<RESOLVECONFLICT>\n<TYPEOBJECT OBJECTTYPENAME = \"ALL\" RESOLUTION=\"REPLACE\"/>\n</RESOLVECONFLICT>\n</IMPORTPARAMS>"

theorem formatSubstAux_no_brace (env : List (String × String)) (l1 l2 : List Char)
    (h : lbrace ∉ l1) :
    formatSubstAux env false [] (l1 ++ l2) = l1 ++ formatSubstAux env false [] l2 := by
  induction l1 with
  | nil => rfl
  | cons c cs ih =>
    have hc : ¬ (c = lbrace) := fun hh => h (hh ▸ List.mem_cons_self c cs)
    have hcs : lbrace ∉ cs := fun hh => h (List.mem_cons_of_mem _ hh)
    simp [formatSubstAux, hc, ih hcs]

theorem formatSubstAux_name (env : List (String × String)) (name : List Char)
    (h : rbrace ∉ name) (acc l2 : List Char) :
    formatSubstAux env true acc (name ++ rbrace :: l2)
      = (envLookup env (String.mk (acc.reverse ++ name))).data
        ++ formatSubstAux env false [] l2 := by
  induction name generalizing acc with
  | nil => simp [formatSubstAux]
  | cons c cs ih =>
    have hc : ¬ (c = rbrace) := fun hh => h (hh ▸ List.mem_cons_self c cs)
    have hcs : rbrace ∉ cs := fun hh => h (List.mem_cons_of_mem _ hh)
    have hstep : formatSubstAux env true acc ((c :: cs) ++ rbrace :: l2)
        = formatSubstAux env true (c :: acc) (cs ++ rbrace :: l2) := by
      simp [formatSubstAux, hc]
    rw [hstep, ih hcs (c :: acc)]
    have hacc : (c :: acc).reverse ++ cs = acc.reverse ++ c :: cs := by simp
    rw [hacc]

theorem formatSubst_placeholder (env : List (String × String)) (name l2 : List Char)
    (h : rbrace ∉ name) :
    formatSubstAux env false [] (lbrace :: (name ++ rbrace :: l2))
      = (envLookup env (String.mk name)).data ++ formatSubstAux env false [] l2 := by
  have := formatSubstAux_name env name h [] l2
  simpa [formatSubstAux] using this

theorem formatSubst_clean (env : List (String × String)) (l : List Char)
    (h : lbrace ∉ l) : formatSubstAux env false [] l = l := by
  have := formatSubstAux_no_brace env l [] h
  simpa [formatSubstAux] using this

theorem strContains_mono_left {b sub : String} (a : String)
    (h : strContains b sub = true) : strContains (a ++ b) sub = true := by
  rw [strContains_iff] at h ⊢
  rw [String.data_append]
  exact h.trans (List.suffix_append _ _).isInfix

theorem strContains_mono_right {a sub : String} (b : String)
    (h : strContains a sub = true) : strContains (a ++ b) sub = true := by
  rw [strContains_iff] at h ⊢
  rw [String.data_append]
  exact h.trans (List.prefix_append _ _).isInfix

/-- C8: for every choice of the five inputs the produced control-file text
is exactly the fixed template with the five values spliced in verbatim (no
escaping), and it always contains `CHECKIN_AFTER_IMPORT="NO"` and the
single conflict rule replacing all object types. -/
theorem create_import_control_xml_spec
    (src_folder src_repo tgt_folder tgt_repo dtd : String) :
    create_import_control_xml src_folder src_repo tgt_folder tgt_repo dtd
      = xmlSeg0 ++ dtd ++ xmlSeg1 ++ src_folder ++ xmlSeg2 ++ src_repo ++ xmlSeg3
        ++ tgt_folder ++ xmlSeg4 ++ tgt_repo ++ xmlSeg5 ∧
    strContains (create_import_control_xml src_folder src_repo tgt_folder tgt_repo dtd)
      "CHECKIN_AFTER_IMPORT=\"NO\"" = true ∧
    strContains (create_import_control_xml src_folder src_repo tgt_folder tgt_repo dtd)
      "<RESOLVECONFLICT>\n<TYPEOBJECT OBJECTTYPENAME = \"ALL\" RESOLUTION=\"REPLACE\"/>\n</RESOLVECONFLICT>"
      = true := by
  have hdec : xmlTemplate.data
      = xmlSeg0.data ++ (lbrace :: ("dtd".data ++ rbrace ::
        (xmlSeg1.data ++ (lbrace :: ("src_folder".data ++ rbrace ::
        (xmlSeg2.data ++ (lbrace :: ("src_repo".data ++ rbrace ::
        (xmlSeg3.data ++ (lbrace :: ("tgt_folder".data ++ rbrace ::
        (xmlSeg4.data ++ (lbrace :: ("tgt_repo".data ++ rbrace ::
        xmlSeg5.data)))))))))))))) := by decide
  have hmain : create_import_control_xml src_folder src_repo tgt_folder tgt_repo dtd
      = xmlSeg0 ++ dtd ++ xmlSeg1 ++ src_folder ++ xmlSeg2 ++ src_repo ++ xmlSeg3
        ++ tgt_folder ++ xmlSeg4 ++ tgt_repo ++ xmlSeg5 := by
    unfold create_import_control_xml formatSubst
    rw [hdec]
    rw [formatSubstAux_no_brace _ _ _ (by decide)]
    rw [formatSubst_placeholder _ _ _ (by decide)]
    rw [formatSubstAux_no_brace _ _ _ (by decide)]
    rw [formatSubst_placeholder _ _ _ (by decide)]
    rw [formatSubstAux_no_brace _ _ _ (by decide)]
    rw [formatSubst_placeholder _ _ _ (by decide)]
    rw [formatSubstAux_no_brace _ _ _ (by decide)]
    rw [formatSubst_placeholder _ _ _ (by decide)]
    rw [formatSubstAux_no_brace _ _ _ (by decide)]
    rw [formatSubst_placeholder _ _ _ (by decide)]
    rw [formatSubst_clean _ _ (by decide)]
    apply String.ext
    simp [String.data_append, envLookup]
  refine ⟨hmain, ?_, ?_⟩
  · rw [hmain]
    have hsplit : xmlSeg0 ++ dtd ++ xmlSeg1 ++ src_folder ++ xmlSeg2 ++ src_repo ++ xmlSeg3
        ++ tgt_folder ++ xmlSeg4 ++ tgt_repo ++ xmlSeg5
      = (xmlSeg0 ++ dtd ++ xmlSeg1) ++ (src_folder ++ xmlSeg2 ++ src_repo ++ xmlSeg3
        ++ tgt_folder ++ xmlSeg4 ++ tgt_repo ++ xmlSeg5) := by
      apply String.ext
      simp [String.data_append, List.append_assoc]
    rw [hsplit]
    exact strContains_mono_right _ (strContains_mono_left _ (by decide))
  · rw [hmain]
    exact strContains_mono_left _ (by decide)

/-- C7: the concrete example from the spec: banner, invocation timestamp
and success line are dropped, the separated line is split, the padded line
is trimmed. -/
theorem format_output_example :
    format_output
        ["Informatica banner", "Invoked at 10:00", "A|B|C", "  x  ", "completed successfully"]
        "|"
      = [Entry.fields ["A", "B", "C"], Entry.scalar "x"] := by
  rfl
